import Mathlib

/-!
Shallow embedding of the dedup + clustering engine of the T-Api repository
(`src/normalization.py`, `src/dedupe.py`, `src/confirm.py`), together with
models of the collaborators the engine calls into:

* `rapidfuzz.fuzz.token_sort_ratio` — per the library's documentation: both
  strings are whitespace-tokenized, tokens sorted and re-joined with single
  spaces, then compared by the normalized InDel similarity
  `100 * (1 - dist/(len1+len2))` with `dist = len1 + len2 - 2*lcs`.
* `urllib.parse.urlparse` / `urlunparse` — modelled for the http(s)-style
  absolute URLs this repository feeds them (`scheme://host/path?query#frag`,
  scheme-less strings fall through to a pure path, `params` unused).
* `hashlib.sha256` — implemented bit-faithfully over `Nat` byte lists
  (FIPS 180-4), with lowercase hex digest.
* `re.search` for the fixed `\b…\b` literal patterns of `ENTITY_PATTERNS`,
  with `re.IGNORECASE`.

Python strings are modelled as Lean `String` / `List Char`; all inputs the
claims exercise are ASCII, and `lower`/`upper`/`\s`/`\w` are modelled on their
ASCII behaviour.  `datetime` values are modelled as UTC instants in whole
seconds (`Int`); `ensure_utc` is then the identity on instants.  Python floats
are modelled as rationals (`ℚ`); `round(x, 4)` is modelled as
round-half-to-even at four decimals, matching Python's `round` on exact ties.
-/

/-- ASCII model of Python's `\s` / `str.strip()` whitespace set. -/
def isPySpace (c : Char) : Bool :=
  c = ' ' || c = '\t' || c = '\n' || c = '\x0d' || c = '\x0b' || c = '\x0c'

/-- One step of `re.sub(r"\s+", " ", s)`: a maximal whitespace run becomes a
single space.  Merging to the right keeps the recursion structural. -/
def subWsRun : List Char → List Char
  | [] => []
  | c :: cs =>
    let rest := subWsRun cs
    if isPySpace c then
      match rest with
      | ' ' :: _ => rest
      | _ => ' ' :: rest
    else c :: rest

/-- Python `str.strip()` (no argument): drop leading and trailing whitespace. -/
def pyStripWs (l : List Char) : List Char :=
  ((l.dropWhile isPySpace).reverse.dropWhile isPySpace).reverse

/-- Embeds `normalization.normalize_text`: empty in, empty out; otherwise
collapse every whitespace run to a single space and strip the ends. -/
def normalize_text (value : String) : String :=
  if value = "" then "" else ⟨pyStripWs (subWsRun value.data)⟩

/-- ASCII model of Python `str.lower`. -/
def pyLower (s : String) : String := ⟨s.data.map Char.toLower⟩

/-- ASCII model of Python `str.upper`. -/
def pyUpper (s : String) : String := ⟨s.data.map Char.toUpper⟩

/-- Embeds `normalization.normalize_title`: `normalize_text` then lower-case. -/
def normalize_title (value : String) : String := pyLower (normalize_text value)

/-- Split off everything after the first occurrence of `sep`; `none` when the
separator does not occur. -/
def splitAtFirst (sep : Char) : List Char → List Char × Option (List Char)
  | [] => ([], none)
  | c :: cs =>
    if c = sep then ([], some cs)
    else
      let p := splitAtFirst sep cs
      (c :: p.1, p.2)

/-- Valid scheme characters per `urllib.parse` (letter first, then
letters/digits/`+`/`-`/`.`). -/
def isSchemeChar (c : Char) : Bool := c.isAlphanum || c = '+' || c = '-' || c = '.'

def isValidScheme : List Char → Bool
  | [] => false
  | c :: cs => c.isAlpha && cs.all isSchemeChar

/-- Result of the `urlparse` model (the unused `params` component is empty for
every URL this repository handles). -/
structure ParsedUrl where
  scheme : List Char
  netloc : List Char
  path : List Char
  query : List Char
  fragment : List Char

/-- Model of `urllib.parse.urlparse` for the URL shapes the repository feeds
it: strip the fragment at the first `#`, the query at the first `?`, then read
`scheme://netloc` when present (the scheme is lower-cased, as in CPython); a
scheme without `//` leaves the netloc empty, and no scheme at all puts the
whole remainder in the path. -/
def pyUrlparse (url : String) : ParsedUrl :=
  let p1 := splitAtFirst '#' url.data
  let fragment := p1.2.getD []
  let p2 := splitAtFirst '?' p1.1
  let query := p2.2.getD []
  let rest := p2.1
  let p3 := splitAtFirst ':' rest
  match p3.2 with
  | some after =>
    if isValidScheme p3.1 then
      match after with
      | '/' :: '/' :: tail =>
        let p4 := splitAtFirst '/' tail
        match p4.2 with
        | some pathTail => ⟨p3.1.map Char.toLower, p4.1, '/' :: pathTail, query, fragment⟩
        | none => ⟨p3.1.map Char.toLower, p4.1, [], query, fragment⟩
      | _ => ⟨p3.1.map Char.toLower, [], after, query, fragment⟩
    else ⟨[], [], rest, query, fragment⟩
  | none => ⟨[], [], rest, query, fragment⟩

/-- Model of `urllib.parse.urlunparse` restricted to empty `params`:
`scheme://netloc/path?query#fragment`, each piece emitted only when
non-empty (netloc also when the path starts with `//`, as in CPython). -/
def pyUrlunparse (scheme netloc path query fragment : List Char) : List Char :=
  let url := path
  let url :=
    if netloc ≠ [] ∨ url.take 2 = ['/', '/'] then
      let url := if url ≠ [] ∧ url.take 1 ≠ ['/'] then '/' :: url else url
      '/' :: '/' :: (netloc ++ url)
    else url
  let url := if scheme ≠ [] then scheme ++ ':' :: url else url
  let url := if query ≠ [] then url ++ '?' :: query else url
  if fragment ≠ [] then url ++ '#' :: fragment else url

/-- Embeds `normalization.canonicalize_url`: default a missing scheme to
`https`, lower-case the host, strip one leading `www.`, force an empty path to
`/`, keep the query, drop params and fragment. -/
def canonicalize_url (url : String) : String :=
  let parsed := pyUrlparse url
  let scheme := if parsed.scheme = [] then "https".data else parsed.scheme
  let netloc := parsed.netloc.map Char.toLower
  let netloc :=
    match netloc with
    | 'w' :: 'w' :: 'w' :: '.' :: rest => rest
    | other => other
  let path := if parsed.path = [] then ['/'] else parsed.path
  ⟨pyUrlunparse scheme netloc path parsed.query []⟩

/-- Embeds `normalization.ensure_utc`.  Timestamps are modelled as UTC
instants (seconds), so attaching or converting a timezone is the identity. -/
def ensure_utc (value : Int) : Int := value

/-- Whitespace tokenization, Python `str.split()`: runs of whitespace
separate tokens, no empty tokens. -/
def pySplitWs (l : List Char) : List (List Char) :=
  (l.foldr
    (fun c acc =>
      if isPySpace c then [] :: acc
      else
        match acc with
        | [] => [[c]]
        | w :: ws => (c :: w) :: ws)
    []).filter (· ≠ [])

/-- Strict lexicographic order on char lists by code point, Python's `<` on
`str`. -/
def lexLt : List Char → List Char → Bool
  | [], [] => false
  | [], _ :: _ => true
  | _ :: _, [] => false
  | a :: as, b :: bs =>
    if a.toNat < b.toNat then true
    else if b.toNat < a.toNat then false
    else lexLt as bs

/-- The matching non-strict order. -/
def lexLe (a b : List Char) : Bool := !lexLt b a

/-- Insert `a` after every element `le`-below-or-equal to it; the building
block of a stable ascending sort, as Python's `sorted` is stable. -/
def insertSorted (le : α → α → Bool) (a : α) : List α → List α
  | [] => [a]
  | b :: bs => if le b a then b :: insertSorted le a bs else a :: b :: bs

/-- Stable ascending insertion sort, modelling Python `sorted`. -/
def pySort (le : α → α → Bool) (l : List α) : List α :=
  l.foldl (fun acc a => insertSorted le a acc) []

/-- One row of the longest-common-subsequence table: given the previous row
(aligned so its head is the diagonal entry) and the value just computed to the
left, emit the entries `new[1..]` of the next row for character `a`. -/
def lcsRowGo (a : Char) : List Char → List Nat → Nat → List Nat
  | [], _, _ => []
  | b :: bs, prow, cur =>
    match prow with
    | [] => []
    | diag :: ptail =>
      let v := if a = b then diag + 1 else max cur (ptail.headD 0)
      v :: lcsRowGo a bs ptail v

/-- Length of a longest common subsequence, by the standard row-by-row dynamic
program; carrier of the InDel distance `rapidfuzz` uses
(`dist = len1 + len2 - 2*lcs`). -/
def lcs (l1 l2 : List Char) : Nat :=
  (l1.foldl (fun row a => 0 :: lcsRowGo a l2 row 0) (List.replicate (l2.length + 1) 0)).getLastD 0

/-- Model of `rapidfuzz.fuzz.token_sort_ratio`: whitespace-tokenize, sort the
tokens, re-join with single spaces, then normalized InDel similarity scaled to
`[0, 100]` (two empty strings score 100). -/
def token_sort_ratio (s1 s2 : String) : ℚ :=
  let t1 := List.intercalate [' '] (pySort lexLe (pySplitWs s1.data))
  let t2 := List.intercalate [' '] (pySort lexLe (pySplitWs s2.data))
  if t1.length + t2.length = 0 then 100
  else 200 * (lcs t1 t2 : ℚ) / (t1.length + t2.length : ℚ)

/-- Embeds `schemas.NewsItem` (the fields the engine reads; constants
`schema_version`, `origin` and the unused `score_hint` carry no behaviour).
`published_at` / `fetched_at` are UTC instants in seconds. -/
structure NewsItem where
  id : String
  source : String
  url : String
  title : String
  summary : Option String
  published_at : Int
  fetched_at : Int
  content_text : String
  language : String
  hash : String
deriving DecidableEq, Repr

/-- Embeds the inner `for existing in result` loop of `dedupe.dedupe_items`:
scan the accumulator in order, stop at the first accepted record whose hash or
canonical URL coincides or whose normalized-title similarity reaches the
threshold. -/
def isDuplicate (threshold : ℚ) (item : NewsItem) : List NewsItem → Bool
  | [] => false
  | existing :: rest =>
    if existing.hash = item.hash ∨ canonicalize_url existing.url = canonicalize_url item.url then
      true
    else if token_sort_ratio (normalize_title existing.title) (normalize_title item.title) / 100
        ≥ threshold then
      true
    else isDuplicate threshold item rest

/-- One iteration of the outer loop of `dedupe.dedupe_items`: keep the
accumulator when the scan found a duplicate, otherwise append the item. -/
def dedupeStep (threshold : ℚ) (result : List NewsItem) (item : NewsItem) : List NewsItem :=
  if isDuplicate threshold item result then result else result ++ [item]

/-- Embeds `dedupe.dedupe_items`: one forward pass, appending each item whose
scan over the accumulator found no duplicate. -/
def dedupe_items (items : List NewsItem) (threshold : ℚ) : List NewsItem :=
  items.foldl (dedupeStep threshold) []

/-- The duplicate test of the spec, §4.3: the candidate matches an accepted
record on fingerprint, canonical URL, or title similarity at or above the
threshold. -/
def specMatch (threshold : ℚ) (accepted item : NewsItem) : Prop :=
  accepted.hash = item.hash ∨
    canonicalize_url accepted.url = canonicalize_url item.url ∨
    token_sort_ratio (normalize_title accepted.title) (normalize_title item.title) / 100 ≥ threshold

instance (threshold : ℚ) (accepted item : NewsItem) : Decidable (specMatch threshold accepted item) := by
  unfold specMatch; infer_instance

/-- Modelled from the spec, §4.3, one candidate: append exactly when no record
already in the accumulator matches it. -/
def dedupeSpecStep (threshold : ℚ) (result : List NewsItem) (item : NewsItem) : List NewsItem :=
  if ∃ accepted ∈ result, specMatch threshold accepted item then result else result ++ [item]

/-- Modelled from the spec, §4.3: the single forward pass of the dedup filter. -/
def dedupeSpec (items : List NewsItem) (threshold : ℚ) : List NewsItem :=
  items.foldl (dedupeSpecStep threshold) []

/-- UTF-8 encoding of one code point, as byte values. -/
def utf8Char (c : Char) : List Nat :=
  let n := c.toNat
  if n < 0x80 then [n]
  else if n < 0x800 then [0xC0 + n / 0x40, 0x80 + n % 0x40]
  else if n < 0x10000 then [0xE0 + n / 0x1000, 0x80 + n / 0x40 % 0x40, 0x80 + n % 0x40]
  else [0xF0 + n / 0x40000, 0x80 + n / 0x1000 % 0x40, 0x80 + n / 0x40 % 0x40, 0x80 + n % 0x40]

/-- Python `str.encode("utf-8")`, bytes as naturals below 256. -/
def utf8Bytes (s : String) : List Nat := s.data.flatMap utf8Char

/-- Right rotation of a 32-bit word represented as a natural below `2^32`. -/
def rotr32 (n x : Nat) : Nat := x / 2 ^ n + x % 2 ^ n * 2 ^ (32 - n)

/-- Bitwise complement inside 32 bits. -/
def not32 (x : Nat) : Nat := 4294967295 - x

def shaCh (x y z : Nat) : Nat := (x &&& y) ^^^ (not32 x &&& z)

def shaMaj (x y z : Nat) : Nat := (x &&& y) ^^^ (x &&& z) ^^^ (y &&& z)

def bigSigma0 (x : Nat) : Nat := rotr32 2 x ^^^ rotr32 13 x ^^^ rotr32 22 x

def bigSigma1 (x : Nat) : Nat := rotr32 6 x ^^^ rotr32 11 x ^^^ rotr32 25 x

def smallSigma0 (x : Nat) : Nat := rotr32 7 x ^^^ rotr32 18 x ^^^ (x / 2 ^ 3)

def smallSigma1 (x : Nat) : Nat := rotr32 17 x ^^^ rotr32 19 x ^^^ (x / 2 ^ 10)

/-- The SHA-256 round constants (FIPS 180-4 section 4.2.2), written as decimal numerals. -/
def shaK : List Nat :=
  [1116352408, 1899447441, 3049323471, 3921009573, 961987163, 1508970993,
   2453635748, 2870763221, 3624381080, 310598401, 607225278, 1426881987,
   1925078388, 2162078206, 2614888103, 3248222580, 3835390401, 4022224774,
   264347078, 604807628, 770255983, 1249150122, 1555081692, 1996064986,
   2554220882, 2821834349, 2952996808, 3210313671, 3336571891, 3584528711,
   113926993, 338241895, 666307205, 773529912, 1294757372, 1396182291,
   1695183700, 1986661051, 2177026350, 2456956037, 2730485921, 2820302411,
   3259730800, 3345764771, 3516065817, 3600352804, 4094571909, 275423344,
   430227734, 506948616, 659060556, 883997877, 958139571, 1322822218,
   1537002063, 1747873779, 1955562222, 2024104815, 2227730452, 2361852424,
   2428436474, 2756734187, 3204031479, 3329325298]

/-- The SHA-256 initial hash value (FIPS 180-4 section 5.3.3), written as decimal numerals. -/
def shaH0 : List Nat :=
  [1779033703, 3144134277, 1013904242, 2773480762, 1359893119, 2600822924, 528734635, 1541459225]

/-- Message padding: append `0x80`, zero bytes to 56 mod 64, then the bit
length as eight big-endian bytes. -/
def shaPad (msg : List Nat) : List Nat :=
  let len := msg.length
  let padZeros := (55 + 64 - len % 64) % 64
  let bitLen := 8 * len
  msg ++ 0x80 :: List.replicate padZeros 0 ++
    [bitLen / 2 ^ 56 % 256, bitLen / 2 ^ 48 % 256, bitLen / 2 ^ 40 % 256, bitLen / 2 ^ 32 % 256,
     bitLen / 2 ^ 24 % 256, bitLen / 2 ^ 16 % 256, bitLen / 2 ^ 8 % 256, bitLen % 256]

/-- Big-endian 32-bit words from bytes. -/
def bytesToWords : List Nat → List Nat
  | b0 :: b1 :: b2 :: b3 :: rest => (((b0 * 256 + b1) * 256 + b2) * 256 + b3) :: bytesToWords rest
  | _ => []

/-- Split a byte list into 64-byte blocks, with fuel keeping the recursion
structural; each step consumes 64 bytes, so `l.length` fuel is enough. -/
def chunks64F : Nat → List Nat → List (List Nat)
  | _, [] => []
  | 0, _ :: _ => []
  | f + 1, x :: xs => (x :: xs).take 64 :: chunks64F f ((x :: xs).drop 64)

/-- Split a byte list into 64-byte blocks. -/
def chunks64 (l : List Nat) : List (List Nat) := chunks64F l.length l

/-- One extension step of the message schedule; the accumulator holds the
schedule so far, most recent word first. -/
def shaExtendStep (rws : List Nat) : Nat :=
  (smallSigma1 (rws.getD 1 0) + rws.getD 6 0 + smallSigma0 (rws.getD 14 0) + rws.getD 15 0) % 2 ^ 32

def shaExtend : Nat → List Nat → List Nat
  | 0, rws => rws
  | k + 1, rws => shaExtend k (shaExtendStep rws :: rws)

/-- The 64-word message schedule of one block. -/
def shaSchedule (block : List Nat) : List Nat :=
  (shaExtend 48 block.reverse).reverse

/-- The eight working registers of the compression loop. -/
structure ShaState where
  a : Nat
  b : Nat
  c : Nat
  d : Nat
  e : Nat
  f : Nat
  g : Nat
  h : Nat

/-- One round of the SHA-256 compression loop. -/
def shaRound (st : ShaState) (kw : Nat × Nat) : ShaState :=
  let t1 := (st.h + bigSigma1 st.e + shaCh st.e st.f st.g + kw.1 + kw.2) % 2 ^ 32
  let t2 := (bigSigma0 st.a + shaMaj st.a st.b st.c) % 2 ^ 32
  ⟨(t1 + t2) % 2 ^ 32, st.a, st.b, st.c, (st.d + t1) % 2 ^ 32, st.e, st.f, st.g⟩

/-- Compress one 64-byte block into the running hash (eight words). -/
def shaCompress (hs : List Nat) (block : List Nat) : List Nat :=
  let ws := shaSchedule (bytesToWords block)
  let st0 : ShaState :=
    ⟨hs.getD 0 0, hs.getD 1 0, hs.getD 2 0, hs.getD 3 0, hs.getD 4 0, hs.getD 5 0, hs.getD 6 0, hs.getD 7 0⟩
  let st := (shaK.zip ws).foldl shaRound st0
  [(hs.getD 0 0 + st.a) % 2 ^ 32, (hs.getD 1 0 + st.b) % 2 ^ 32, (hs.getD 2 0 + st.c) % 2 ^ 32,
   (hs.getD 3 0 + st.d) % 2 ^ 32, (hs.getD 4 0 + st.e) % 2 ^ 32, (hs.getD 5 0 + st.f) % 2 ^ 32,
   (hs.getD 6 0 + st.g) % 2 ^ 32, (hs.getD 7 0 + st.h) % 2 ^ 32]

/-- SHA-256 of a byte list: the eight hash words. -/
def sha256Words (msg : List Nat) : List Nat :=
  (chunks64 (shaPad msg)).foldl shaCompress shaH0

def hexDigitChar (n : Nat) : Char :=
  if n < 10 then Char.ofNat (48 + n) else Char.ofNat (87 + n)

/-- Lowercase hex of one 32-bit word, eight digits. -/
def wordToHex (w : Nat) : List Char :=
  [hexDigitChar (w / 2 ^ 28 % 16), hexDigitChar (w / 2 ^ 24 % 16), hexDigitChar (w / 2 ^ 20 % 16),
   hexDigitChar (w / 2 ^ 16 % 16), hexDigitChar (w / 2 ^ 12 % 16), hexDigitChar (w / 2 ^ 8 % 16),
   hexDigitChar (w / 2 ^ 4 % 16), hexDigitChar (w % 16)]

/-- Model of `hashlib.sha256(data).hexdigest()`: 64 lowercase hex characters. -/
def sha256Hex (msg : List Nat) : String :=
  ⟨(sha256Words msg).flatMap wordToHex⟩

/-- Embeds `dedupe.compute_hash`: SHA-256 hex of
`normalize_title(title) + "::" + content` — note the raw, un-normalized
`content`. -/
def compute_hash (title content : String) : String :=
  sha256Hex (utf8Bytes (normalize_title title ++ "::" ++ content))

/-- Modelled from the spec, §4.2:
`fingerprint(title, content) = hex(SHA-256(normalizeTitle(title) + "::" + normalizeText(content)))`,
with the *normalized* content. -/
def specFingerprint (title content : String) : String :=
  sha256Hex (utf8Bytes (normalize_title title ++ "::" ++ normalize_text content))

/-- Embeds `confirm.SOURCE_WEIGHTS` together with the `.get(source, 0.5)`
lookup in `score_cluster`. -/
def SOURCE_WEIGHTS (source : String) : ℚ :=
  if source = "coindesk" then 1
  else if source = "theblock" then 1
  else if source = "blockworks" then 1
  else if source = "cryptopanic" then 2
  else if source = "messari" then 1
  else 1 / 2

/-- Embeds `confirm.ENTITY_PATTERNS` (raw regex source strings). -/
def ENTITY_PATTERNS : List String :=
  ["\\bBTC\\b", "\\bETH\\b", "\\bSOL\\b", "\\bXRP\\b", "\\bSEC\\b", "\\bETF\\b",
   "\\bhack\\b", "\\bfunding rate\\b", "\\blisting\\b"]

/-- Python `str.strip(chars)`: drop the given characters from both ends. -/
def pyStripChars (chars l : List Char) : List Char :=
  ((l.dropWhile (chars.contains ·)).reverse.dropWhile (chars.contains ·)).reverse

/-- ASCII model of the regex `\w` class. -/
def isWordChar (c : Char) : Bool := c.isAlphanum || c = '_'

/-- Word-ness of an optional character; out of range counts as non-word. -/
def wordOpt : Option Char → Bool
  | none => false
  | some c => isWordChar c

/-- Does `\b core \b` match at the current position, given the preceding
character?  A `\b` holds where word-ness changes (string ends count as
non-word). -/
def bMatchAt (core : List Char) (prev : Option Char) (text : List Char) : Bool :=
  decide (text.take core.length = core) &&
    (wordOpt prev != wordOpt core.head?) &&
    (wordOpt core.getLast? != wordOpt (text.drop core.length).head?)

/-- Scan every position of `text` for a `\b core \b` match. -/
def bSearch (core : List Char) : Option Char → List Char → Bool
  | prev, [] => bMatchAt core prev []
  | prev, c :: rest => bMatchAt core prev (c :: rest) || bSearch core (some c) rest

/-- Model of `re.search(pattern, text, re.IGNORECASE)` for the fixed
`ENTITY_PATTERNS` shape `r"\b<literal>\b"`: interpret the two `\b` anchors,
lower-case the literal (the caller's text is already lower-cased, so
`IGNORECASE` reduces to that) and scan for a word-bounded occurrence. -/
def reSearchBWord (pat : String) (text : List Char) : Bool :=
  let core := ((pat.data.drop 2).dropLast.dropLast).map Char.toLower
  bSearch core none text

/-- Non-strict code-point order on strings, Python's `<=` on `str`. -/
def strLe (a b : String) : Bool := lexLe a.data b.data

/-- Embeds `confirm.extract_entities`: lower the text, collect the bare token
(`pattern.strip("\b")`, upper-cased) of every pattern that matches, as a set,
and return it sorted. -/
def extract_entities (text : String) : List String :=
  let lowered := pyLower text
  let matched := ENTITY_PATTERNS.filter (fun p => reSearchBWord p lowered.data)
  let tokens := (matched.map (fun p => pyUpper ⟨pyStripChars ['\\', 'b'] p.data⟩)).dedup
  pySort strLe tokens

/-- Python `max()` over a list (`None` for an empty one, where Python raises). -/
def pyMaxInt : List Int → Option Int
  | [] => none
  | x :: xs => some (xs.foldl max x)

/-- Python `min()` over a list. -/
def pyMinInt : List Int → Option Int
  | [] => none
  | x :: xs => some (xs.foldl min x)

/-- Round half to even at the integers, Python's `round` on an exact tie. -/
def rndHalfEven (x : ℚ) : Int :=
  let f := Int.floor x
  let r := x - f
  if r < 1 / 2 then f
  else if 1 / 2 < r then f + 1
  else if f % 2 = 0 then f else f + 1

/-- Model of Python `round(x, 4)`. -/
def pyRound4 (x : ℚ) : ℚ := (rndHalfEven (x * 10000) : ℚ) / 10000

/-- Embeds the clamped hour delta of `confirm.score_cluster`:
`max(1, (now - ensure_utc(latest)).total_seconds() / 3600)`. -/
def delta_hours_of (now latest : Int) : ℚ :=
  max 1 (((ensure_utc now - ensure_utc latest : Int) : ℚ) / 3600)

/-- Embeds the freshness computation of `confirm.score_cluster` (lines 42–47):
zero for no members, otherwise `max(0, 1 - delta_hours/24)` over the newest
member.  `now` is the instant the Python code reads from
`datetime.now(timezone.utc)`, passed explicitly here. -/
def freshness_of (items : List NewsItem) (now : Int) : ℚ :=
  match pyMaxInt (items.map (·.published_at)) with
  | none => 0
  | some latest => max 0 (1 - delta_hours_of now latest / 24)

/-- Embeds `confirm.score_cluster`: `round(0.6*similarity + 0.3*source_weight
+ 0.1*freshness, 4)`, with the source weights summed over distinct sources. -/
def score_cluster (items : List NewsItem) (similarity : ℚ) (now : Int) : ℚ :=
  let freshness := freshness_of items now
  let sources := (items.map (·.source)).dedup
  let source_weight := (sources.map SOURCE_WEIGHTS).sum
  pyRound4 (6 / 10 * similarity + 3 / 10 * source_weight + 1 / 10 * freshness)

/-- Embeds the per-cluster test of the matching loop in
`confirm.cluster_news_items`: compare the candidate against the cluster's most
recently appended member; skip when outside the window, otherwise require
title similarity at or above the threshold. -/
def clusterMatch (window_minutes : Int) (threshold : ℚ) (cluster : List NewsItem) (item : NewsItem) : Bool :=
  match cluster.getLast? with
  | none => false
  | some last_item =>
    if ((ensure_utc item.published_at - ensure_utc last_item.published_at).natAbs : Int)
        > window_minutes * 60 then
      false
    else
      token_sort_ratio (normalize_title last_item.title) (normalize_title item.title) / 100
        ≥ threshold

/-- Embeds one iteration of the outer loop of `confirm.cluster_news_items`:
scan the open clusters in creation order, append to the first match, else
open a new singleton cluster at the end. -/
def placeItem (window_minutes : Int) (threshold : ℚ) : List (List NewsItem) → NewsItem → List (List NewsItem)
  | [], item => [[item]]
  | c :: cs, item =>
    if clusterMatch window_minutes threshold c item then (c ++ [item]) :: cs
    else c :: placeItem window_minutes threshold cs item

/-- Embeds `sorted(items, key=lambda i: i.published_at)` (stable). -/
def sortByPublished (items : List NewsItem) : List NewsItem :=
  pySort (fun a b => decide (a.published_at ≤ b.published_at)) items

/-- The grouping phase of `confirm.cluster_news_items`: the member lists of
the clusters, before they are turned into `NewsCluster` records. -/
def clusterGroups (items : List NewsItem) (window_minutes : Int) (threshold : ℚ) : List (List NewsItem) :=
  (sortByPublished items).foldl (placeItem window_minutes threshold) []

/-- One `{"source": …, "url": …, "title": …}` entry of a cluster's `links`. -/
structure Link where
  source : String
  url : String
  title : String
deriving DecidableEq, Repr

/-- Embeds `schemas.NewsCluster` (behaviour-free constants omitted). -/
structure NewsCluster where
  cluster_id : String
  canonical_title : String
  summary : String
  score : ℚ
  source_count : Nat
  entities : List String
  sentiment_hint : Option String
  first_seen : Int
  last_seen : Int
  links : List Link
deriving DecidableEq, Repr

/-- The link entry `{"source": item.source, "url": item.url, "title": item.title}`
built for each member in `confirm.cluster_news_items`. -/
def mkLink (item : NewsItem) : Link :=
  ⟨item.source, item.url, item.title⟩

/-- Embeds the `intraSimilarity` computation of `confirm.cluster_news_items`
(lines 79–86): `0.0` unless the cluster has more than one member, otherwise
the maximum similarity between the first member's normalized title and each
other member's. -/
def clusterSimilarity : List NewsItem → ℚ
  | [] => 0
  | [_] => 0
  | base :: r :: rs =>
    (rs.map (fun item => token_sort_ratio (normalize_title base.title) (normalize_title item.title) / 100)).foldl
      max (token_sort_ratio (normalize_title base.title) (normalize_title r.title) / 100)

/-- Embeds the cluster-record construction of `confirm.cluster_news_items`
(the body of the second loop); `none` on an empty member list, where the
Python `min`/`max`/`[0]` would raise (the grouping phase never produces one).
The cluster id — `str(uuid.uuid4())` in the source — is injected. -/
def buildCluster (cid : String) (now : Int) : List NewsItem → Option NewsCluster
  | [] => none
  | first :: rest =>
    let cluster_items := first :: rest
    let similarity := clusterSimilarity cluster_items
    let entities := extract_entities (String.intercalate " " (cluster_items.map (·.title)))
    let first_seen := (rest.map (·.published_at)).foldl min first.published_at
    let last_seen := (rest.map (·.published_at)).foldl max first.published_at
    let score := score_cluster cluster_items similarity now
    some
      { cluster_id := cid
        canonical_title := first.title
        summary :=
          match first.summary with
          | none => first.title
          | some s => if s = "" then first.title else s
        score := score
        source_count := ((cluster_items.map (·.source)).dedup).length
        entities := entities
        sentiment_hint := none
        first_seen := first_seen
        last_seen := last_seen
        links := cluster_items.map mkLink }

/-- The second loop of `confirm.cluster_news_items`, one `NewsCluster` per
group, ids drawn from the injected generator in loop order. -/
def buildClusters (idGen : Nat → String) (now : Int) : Nat → List (List NewsItem) → List NewsCluster
  | _, [] => []
  | n, g :: gs =>
    match buildCluster (idGen n) now g with
    | none => buildClusters idGen now (n + 1) gs
    | some c => c :: buildClusters idGen now (n + 1) gs

/-- Embeds `confirm.cluster_news_items`.  The source reads `uuid.uuid4()` and
(inside `score_cluster`) `datetime.now(timezone.utc)` implicitly; the model
takes the id generator and the clock instant as explicit inputs. -/
def cluster_news_items (items : List NewsItem) (window_minutes : Int) (similarity_threshold : ℚ)
    (idGen : Nat → String) (now : Int) : List NewsCluster :=
  buildClusters idGen now 0 (clusterGroups items window_minutes similarity_threshold)

/-- A sample record used by witnesses. -/
def sampleItem : NewsItem :=
  ⟨"w1", "coindesk", "https://example.com/a", "btc etf approved", none, 0, 0, "body", "en", "hash-a"⟩

/-- A second sample record. -/
def sampleItem2 : NewsItem :=
  ⟨"w2", "theblock", "https://example.com/b", "etf btc approved", none, 600, 0, "body2", "en", "hash-b"⟩

/-- Two records carrying the two URLs of claim C2, with distinct fingerprints
and dissimilar titles. -/
def urlDupA : NewsItem :=
  ⟨"u1", "coindesk", "http://WWW.Example.com/a#frag", "aaa", none, 0, 0, "", "en", "hash-u1"⟩

def urlDupB : NewsItem :=
  ⟨"u2", "theblock", "https://example.com/a", "zzz", none, 60, 0, "", "en", "hash-u2"⟩

/-- Three chained records for the C5 witness: each neighbour within the
60-minute window, the ends 100 minutes apart. -/
def chainA : NewsItem :=
  ⟨"c1", "coindesk", "https://example.com/c1", "btc etf", none, 0, 0, "", "en", "hash-c1"⟩

def chainB : NewsItem :=
  ⟨"c2", "theblock", "https://example.com/c2", "btc etf", none, 3000, 0, "", "en", "hash-c2"⟩

def chainC : NewsItem :=
  ⟨"c3", "messari", "https://example.com/c3", "btc etf", none, 6000, 0, "", "en", "hash-c3"⟩

example : normalize_text "  a \t b  " = "a b" := by decide

example : normalize_text "" = "" := by decide

example : normalize_title "  Hello   World " = "hello world" := by decide

example : canonicalize_url "http://WWW.Example.com/a#frag" = "http://example.com/a" := by decide

example : canonicalize_url "https://example.com/a" = "https://example.com/a" := by decide

example : canonicalize_url "https://WWW.Example.com/a#frag" = "https://example.com/a" := by decide

example : canonicalize_url "example.com/x?q=1" = "https:example.com/x?q=1" := by decide

example : token_sort_ratio "world hello" "hello world" = 100 := by with_unfolding_all decide

example : token_sort_ratio "aaa" "zzz" = 0 := by with_unfolding_all decide

example : token_sort_ratio "" "" = 100 := by with_unfolding_all decide

example : token_sort_ratio "btc etf" "btc etf" = 100 := by with_unfolding_all decide

example : (token_sort_ratio "abcd" "abcz" : ℚ) = 75 := by with_unfolding_all decide

example : sha256Hex (utf8Bytes "abc")
    = "ba7816bf8f01cfea414140de5dae2223b00361a396177a9cb410ff61f20015ad" := by decide

example : sha256Hex (utf8Bytes "")
    = "e3b0c44298fc1c149afbf4c8996fb92427ae41e4649b934ca495991b7852b855" := by decide

example : extract_entities "Bitcoin hits $50k BTC ETF approved by SEC" = ["BTC", "ETF", "SEC"] := by decide

example : extract_entities "nothing here" = [] := by decide

example : extract_entities "the hack; funding rate up" = ["FUNDING RATE", "HACK"] := by decide

example : extract_entities "subsection ethanol" = [] := by decide

lemma isDuplicate_eq_true_iff (threshold : ℚ) (item : NewsItem) :
    ∀ result : List NewsItem,
      isDuplicate threshold item result = true ↔ ∃ accepted ∈ result, specMatch threshold accepted item := by
  intro result
  induction result with
  | nil => simp [isDuplicate]
  | cons existing rest ih =>
    by_cases h1 : existing.hash = item.hash ∨ canonicalize_url existing.url = canonicalize_url item.url
    · simp [isDuplicate, h1, specMatch]
      exact Or.inl (h1.elim Or.inl (fun h => Or.inr (Or.inl h)))
    · by_cases h2 : token_sort_ratio (normalize_title existing.title) (normalize_title item.title) / 100 ≥ threshold
      · simp [isDuplicate, h1, h2, specMatch]
      · simp [isDuplicate, h1, h2, ih, specMatch]

lemma dedupeStep_eq_specStep (threshold : ℚ) (result : List NewsItem) (item : NewsItem) :
    dedupeStep threshold result item = dedupeSpecStep threshold result item := by
  unfold dedupeStep dedupeSpecStep
  by_cases h : ∃ accepted ∈ result, specMatch threshold accepted item
  · rw [if_pos ((isDuplicate_eq_true_iff threshold item result).mpr h), if_pos h]
  · rw [if_neg (fun hc => h ((isDuplicate_eq_true_iff threshold item result).mp hc)), if_neg h]

lemma foldl_dedupeStep_eq_spec (threshold : ℚ) :
    ∀ (items : List NewsItem) (acc : List NewsItem),
      items.foldl (dedupeStep threshold) acc = items.foldl (dedupeSpecStep threshold) acc := by
  intro items
  induction items with
  | nil => intro acc; rfl
  | cons i rest ih =>
    intro acc
    simp only [List.foldl_cons, dedupeStep_eq_specStep, ih]

lemma foldl_dedupeStep_sublist (threshold : ℚ) :
    ∀ (items : List NewsItem) (acc : List NewsItem),
      ∃ s, items.foldl (dedupeStep threshold) acc = acc ++ s ∧ s.Sublist items := by
  intro items
  induction items with
  | nil => exact fun acc => ⟨[], by simp⟩
  | cons i rest ih =>
    intro acc
    by_cases h : isDuplicate threshold i acc = true
    · obtain ⟨s, hs, hsub⟩ := ih acc
      refine ⟨s, ?_, hsub.cons i⟩
      simpa [List.foldl_cons, dedupeStep, h] using hs
    · obtain ⟨s, hs, hsub⟩ := ih (acc ++ [i])
      refine ⟨i :: s, ?_, hsub.cons₂ i⟩
      simp only [List.foldl_cons, dedupeStep, h, if_neg]
      simpa [List.append_assoc] using hs

lemma foldl_dedupeStep_replay (threshold : ℚ) :
    ∀ (items : List NewsItem) (r : List NewsItem),
      r.foldl (dedupeStep threshold) [] = r →
        (items.foldl (dedupeStep threshold) r).foldl (dedupeStep threshold) []
          = items.foldl (dedupeStep threshold) r := by
  intro items
  induction items with
  | nil => exact fun r h => h
  | cons i rest ih =>
    intro r hr
    simp only [List.foldl_cons]
    apply ih
    by_cases h : isDuplicate threshold i r = true
    · simpa [dedupeStep, h] using hr
    · have hstep : dedupeStep threshold r i = r ++ [i] := by simp [dedupeStep, h]
      rw [hstep, List.foldl_append, hr]
      simp [dedupeStep, h]

lemma le_foldl_max : ∀ (l : List ℚ) (a : ℚ), a ≤ l.foldl max a := by
  intro l
  induction l with
  | nil => intro a; exact le_refl a
  | cons x xs ih =>
    intro a
    exact le_trans (le_max_left a x) (ih (max a x))

lemma mem_le_foldl_max : ∀ (l : List ℚ) (a x : ℚ), x ∈ l → x ≤ l.foldl max a := by
  intro l
  induction l with
  | nil => intro a x hx; cases hx
  | cons y ys ih =>
    intro a x hx
    rcases List.mem_cons.mp hx with h | h
    · subst h
      exact le_trans (le_max_right a x) (le_foldl_max ys (max a x))
    · exact ih (max a y) x h

lemma foldl_max_eq_or_mem : ∀ (l : List ℚ) (a : ℚ), l.foldl max a = a ∨ l.foldl max a ∈ l := by
  intro l
  induction l with
  | nil => intro a; exact Or.inl rfl
  | cons x xs ih =>
    intro a
    rcases ih (max a x) with h | h
    · rcases max_choice a x with hm | hm
      · exact Or.inl (by rw [List.foldl_cons, h, hm])
      · refine Or.inr (List.mem_cons.mpr (Or.inl ?_))
        rw [List.foldl_cons, h, hm]
    · exact Or.inr (List.mem_cons.mpr (Or.inr h))

lemma insertSorted_perm (le : α → α → Bool) (a : α) :
    ∀ l : List α, List.Perm (insertSorted le a l) (a :: l) := by
  intro l
  induction l with
  | nil => exact List.Perm.refl _
  | cons b bs ih =>
    by_cases h : le b a = true
    · have h1 : insertSorted le a (b :: bs) = b :: insertSorted le a bs := by
        simp [insertSorted, h]
      rw [h1]
      exact (ih.cons b).trans (List.Perm.swap a b bs)
    · have h1 : insertSorted le a (b :: bs) = a :: b :: bs := by
        simp [insertSorted, h]
      rw [h1]

lemma foldl_insertSorted_perm (le : α → α → Bool) :
    ∀ (l acc : List α),
      List.Perm (l.foldl (fun acc a => insertSorted le a acc) acc) (acc ++ l) := by
  intro l
  induction l with
  | nil => intro acc; simp
  | cons a rest ih =>
    intro acc
    have h1 : (a :: rest).foldl (fun acc a => insertSorted le a acc) acc
        = rest.foldl (fun acc a => insertSorted le a acc) (insertSorted le a acc) := by
      simp [List.foldl_cons]
    rw [h1]
    refine ((ih _).trans ?_)
    refine (((insertSorted_perm le a acc).append_right rest).trans ?_)
    exact List.perm_middle.symm

lemma pySort_perm (le : α → α → Bool) (l : List α) : List.Perm (pySort le l) l := by
  simpa using foldl_insertSorted_perm le l []

lemma lexLt_asymm : ∀ (a b : List Char), lexLt a b = true → lexLt b a = false := by
  intro a
  induction a with
  | nil =>
    intro b h
    cases b with
    | nil => simp [lexLt] at h
    | cons y ys => simp [lexLt]
  | cons x xs ih =>
    intro b h
    cases b with
    | nil => simp [lexLt] at h
    | cons y ys =>
      simp only [lexLt] at h ⊢
      by_cases h1 : x.toNat < y.toNat
      · rw [if_neg (by omega), if_pos h1]
      · by_cases h2 : y.toNat < x.toNat
        · rw [if_neg h1, if_pos h2] at h
          exact absurd h (by simp)
        · rw [if_neg h1, if_neg h2] at h
          rw [if_neg h2, if_neg h1]
          exact ih ys h

lemma lexLt_lt_of_not_lt :
    ∀ (c a b : List Char), lexLt c a = true → lexLt b a = false → lexLt c b = true := by
  intro c
  induction c with
  | nil =>
    intro a b hca hba
    cases a with
    | nil => simp [lexLt] at hca
    | cons y ys =>
      cases b with
      | nil => simp [lexLt] at hba
      | cons z zs => simp [lexLt]
  | cons x xs ih =>
    intro a b hca hba
    cases a with
    | nil => simp [lexLt] at hca
    | cons y ys =>
      cases b with
      | nil => simp [lexLt] at hba
      | cons z zs =>
        simp only [lexLt] at hca hba ⊢
        by_cases hzy : z.toNat < y.toNat
        · rw [if_pos hzy] at hba
          exact absurd hba (by simp)
        · by_cases hxy : x.toNat < y.toNat
          · by_cases hyz : y.toNat < z.toNat
            · rw [if_pos (by omega)]
            · rw [if_pos (by omega)]
          · by_cases hyx : y.toNat < x.toNat
            · rw [if_neg hxy, if_pos hyx] at hca
              exact absurd hca (by simp)
            · rw [if_neg hxy, if_neg hyx] at hca
              by_cases hyz : y.toNat < z.toNat
              · rw [if_pos (by omega)]
              · rw [if_neg hzy, if_neg hyz] at hba
                rw [if_neg (by omega), if_neg (by omega)]
                exact ih ys zs hca hba

lemma strLe_total (a b : String) : strLe a b = true ∨ strLe b a = true := by
  unfold strLe lexLe
  by_cases h : lexLt b.data a.data = true
  · exact Or.inr (by simp [lexLt_asymm _ _ h])
  · exact Or.inl (by simp [Bool.not_eq_true] at h; simp [h])

lemma strLe_trans {a b c : String} (hab : strLe a b = true) (hbc : strLe b c = true) :
    strLe a c = true := by
  unfold strLe lexLe at hab hbc ⊢
  simp only [Bool.not_eq_true'] at hab hbc ⊢
  cases hca : lexLt c.data a.data with
  | false => rfl
  | true => rw [lexLt_lt_of_not_lt c.data a.data b.data hca hab] at hbc; cases hbc

lemma sorted_insertSorted_strLe (a : String) :
    ∀ l : List String, List.Sorted (fun x y => strLe x y = true) l →
    List.Sorted (fun x y => strLe x y = true) (insertSorted strLe a l) := by
  intro l
  induction l with
  | nil => intro h; simp [insertSorted]
  | cons b bs ih =>
    intro hs
    rw [List.sorted_cons] at hs
    by_cases h : strLe b a = true
    · have h1 : insertSorted strLe a (b :: bs) = b :: insertSorted strLe a bs := by
        simp [insertSorted, h]
      rw [h1, List.sorted_cons]
      constructor
      · intro x hx
        have hx' := (insertSorted_perm strLe a bs).mem_iff.mp hx
        rcases List.mem_cons.mp hx' with rfl | hmem
        · exact h
        · exact hs.1 x hmem
      · exact ih hs.2
    · have h1 : insertSorted strLe a (b :: bs) = a :: b :: bs := by
        simp [insertSorted, h]
      have hab : strLe a b = true := (strLe_total a b).resolve_right (by simpa using h)
      rw [h1, List.sorted_cons]
      refine ⟨?_, List.sorted_cons.mpr hs⟩
      intro x hx
      rcases List.mem_cons.mp hx with rfl | hmem
      · exact hab
      · exact strLe_trans hab (hs.1 x hmem)

lemma sorted_foldl_insertSorted_strLe :
    ∀ (l acc : List String), List.Sorted (fun x y => strLe x y = true) acc →
      List.Sorted (fun x y => strLe x y = true)
        (l.foldl (fun acc a => insertSorted strLe a acc) acc) := by
  intro l
  induction l with
  | nil => intro acc h; exact h
  | cons a rest ih =>
    intro acc h
    simp only [List.foldl_cons]
    exact ih _ (sorted_insertSorted_strLe a acc h)

lemma sorted_pySort_strLe (l : List String) :
    List.Sorted (fun x y => strLe x y = true) (pySort strLe l) :=
  sorted_foldl_insertSorted_strLe l [] (List.sorted_nil)

lemma placeItem_join_perm (wm : Int) (t : ℚ) (item : NewsItem) :
    ∀ cs : List (List NewsItem),
      List.Perm (placeItem wm t cs item).flatten (item :: cs.flatten) := by
  intro cs
  induction cs with
  | nil => simp [placeItem]
  | cons c rest ih =>
    by_cases h : clusterMatch wm t c item = true
    · have h1 : placeItem wm t (c :: rest) item = (c ++ [item]) :: rest := by
        simp [placeItem, h]
      rw [h1]
      simp only [List.flatten_cons, List.append_assoc, List.singleton_append]
      exact List.perm_middle
    · have h1 : placeItem wm t (c :: rest) item = c :: placeItem wm t rest item := by
        simp [placeItem, h]
      rw [h1]
      simp only [List.flatten_cons]
      exact ((ih.append_left c).trans List.perm_middle)

lemma placeItem_ne_nil (wm : Int) (t : ℚ) (item : NewsItem) :
    ∀ cs : List (List NewsItem), (∀ g ∈ cs, g ≠ []) →
      ∀ g ∈ placeItem wm t cs item, g ≠ [] := by
  intro cs
  induction cs with
  | nil =>
    intro _ g hg
    simp [placeItem] at hg
    simp [hg]
  | cons c rest ih =>
    intro hcs g hg
    by_cases h : clusterMatch wm t c item = true
    · rw [show placeItem wm t (c :: rest) item = (c ++ [item]) :: rest from by simp [placeItem, h]] at hg
      rcases List.mem_cons.mp hg with rfl | hmem
      · simp
      · exact hcs g (List.mem_cons.mpr (Or.inr hmem))
    · rw [show placeItem wm t (c :: rest) item = c :: placeItem wm t rest item from by
        simp [placeItem, h]] at hg
      rcases List.mem_cons.mp hg with rfl | hmem
      · exact hcs g (List.mem_cons.mpr (Or.inl rfl))
      · exact ih (fun g' hg' => hcs g' (List.mem_cons.mpr (Or.inr hg'))) g hmem

lemma foldl_placeItem_join_perm (wm : Int) (t : ℚ) :
    ∀ (items : List NewsItem) (cs : List (List NewsItem)),
      List.Perm (items.foldl (placeItem wm t) cs).flatten (cs.flatten ++ items) := by
  intro items
  induction items with
  | nil => intro cs; simp
  | cons i rest ih =>
    intro cs
    simp only [List.foldl_cons]
    refine (ih (placeItem wm t cs i)).trans ?_
    refine (((placeItem_join_perm wm t i cs).append_right rest).trans ?_)
    exact List.perm_middle.symm

lemma foldl_placeItem_ne_nil (wm : Int) (t : ℚ) :
    ∀ (items : List NewsItem) (cs : List (List NewsItem)), (∀ g ∈ cs, g ≠ []) →
      ∀ g ∈ items.foldl (placeItem wm t) cs, g ≠ [] := by
  intro items
  induction items with
  | nil => intro cs h; exact h
  | cons i rest ih =>
    intro cs h
    simp only [List.foldl_cons]
    exact ih (placeItem wm t cs i) (placeItem_ne_nil wm t i cs h)

lemma clusterGroups_ne_nil (items : List NewsItem) (wm : Int) (t : ℚ) :
    ∀ g ∈ clusterGroups items wm t, g ≠ [] :=
  foldl_placeItem_ne_nil wm t (sortByPublished items) [] (by simp)

lemma clusterGroups_join_perm (items : List NewsItem) (wm : Int) (t : ℚ) :
    List.Perm (clusterGroups items wm t).flatten items := by
  unfold clusterGroups
  refine (foldl_placeItem_join_perm wm t (sortByPublished items) []).trans ?_
  simpa [sortByPublished] using pySort_perm (fun a b => decide (a.published_at ≤ b.published_at)) items

lemma buildClusters_links (idGen : Nat → String) (now : Int) :
    ∀ (gs : List (List NewsItem)) (n : Nat), (∀ g ∈ gs, g ≠ []) →
      (buildClusters idGen now n gs).map (fun c => c.links) = gs.map (fun g => g.map mkLink) := by
  intro gs
  induction gs with
  | nil => intro n _; rfl
  | cons g rest ih =>
    intro n h
    match g, h g (List.mem_cons.mpr (Or.inl rfl)) with
    | first :: tail, _ =>
      simp only [buildClusters, buildCluster, List.map_cons]
      exact congrArg _ (ih (n + 1) (fun g' hg' => h g' (List.mem_cons.mpr (Or.inr hg'))))

/-- C1 (counterexample): `compute_hash` hashes the *raw* content, so it differs
from the spec's fingerprint formula on a content string with collapsible
whitespace, and two records whose contents agree after normalization need not
share a fingerprint. -/
theorem compute_hash_ignores_content_normalization :
    normalize_text "a  b" = normalize_text "a b" ∧
    compute_hash "t" "a  b" ≠ specFingerprint "t" "a  b" ∧
    compute_hash "t" "a  b" ≠ compute_hash "t" "a b" :=
  ⟨by decide, by decide, by decide⟩

/-- C1 (amended): the fingerprint equals the lowercase hex SHA-256 digest of
`normalizeTitle(title) + "::" + content` with the raw content, so any two
records whose titles agree after normalization and whose raw contents are
equal share a fingerprint, regardless of source or URL. -/
theorem compute_hash_raw_content (t1 t2 c : String)
    (h : normalize_title t1 = normalize_title t2) :
    compute_hash t1 c = compute_hash t2 c ∧
    compute_hash t1 c = sha256Hex (utf8Bytes (normalize_title t1 ++ "::" ++ c)) := by
  constructor
  · unfold compute_hash
    rw [h]
  · rfl

theorem compute_hash_raw_content_witness :
    normalize_title "A  B" = normalize_title "a b" ∧
    (compute_hash "A  B" "c d" = compute_hash "a b" "c d" ∧
      compute_hash "A  B" "c d" = sha256Hex (utf8Bytes (normalize_title "A  B" ++ "::" ++ "c d"))) :=
  ⟨by decide, compute_hash_raw_content "A  B" "a b" "c d" (by decide)⟩

/-- C3 (code evidence): `score_cluster` is a function of the clock instant the
Python code reads implicitly from `datetime.now(timezone.utc)` — the same
items and similarity score differently at two different instants, so the
scorer is not reproducible unless that read is replaced by an injected
clock. -/
theorem score_cluster_depends_on_clock :
    score_cluster [sampleItem] 0 0 ≠ score_cluster [sampleItem] 0 360000 := by
  with_unfolding_all decide

/-- C4: dedup is idempotent — re-running `dedupe_items` on its own output with
the same threshold returns the same sequence. -/
theorem dedupe_items_idempotent (items : List NewsItem) (t : ℚ)
    (h0 : 0 ≤ t) (h1 : t ≤ 1) :
    dedupe_items (dedupe_items items t) t = dedupe_items items t := by
  unfold dedupe_items
  exact foldl_dedupeStep_replay t items [] rfl

theorem dedupe_items_idempotent_witness :
    ((0 : ℚ) ≤ 1 ∧ (1 : ℚ) ≤ 1) ∧
    dedupe_items (dedupe_items [sampleItem, sampleItem2] 1) 1
      = dedupe_items [sampleItem, sampleItem2] 1 :=
  ⟨⟨by decide, by decide⟩,
    dedupe_items_idempotent [sampleItem, sampleItem2] 1 (by decide) (by decide)⟩

/-- C6: the dedup output is a subsequence of its input (in input order), and
equals the spec's greedy filter — a candidate is appended exactly when no
already-accepted record matches it by fingerprint, canonical URL, or
normalized-title similarity at or above the threshold (the implementation's
scan stops at the first match, which decides the same predicate). -/
theorem dedupe_items_subsequence_spec (items : List NewsItem) (t : ℚ) :
    (dedupe_items items t).Sublist items ∧ dedupe_items items t = dedupeSpec items t := by
  constructor
  · obtain ⟨s, hs, hsub⟩ := foldl_dedupeStep_sublist t items []
    unfold dedupe_items
    rw [hs]
    simpa using hsub
  · exact foldl_dedupeStep_eq_spec t items []

/-- C10: the clusterer partitions its input — every group is non-empty, the
groups' members are exactly the input records (multiset equality, so each
record lands in exactly one group), the links of the returned clusters are
exactly the input records' link entries, and no returned cluster is empty. -/
theorem cluster_news_items_partition (items : List NewsItem) (wm : Int) (t : ℚ)
    (idGen : Nat → String) (now : Int) :
    (∀ g ∈ clusterGroups items wm t, g ≠ []) ∧
    List.Perm (clusterGroups items wm t).flatten items ∧
    List.Perm ((cluster_news_items items wm t idGen now).map (fun c => c.links)).flatten
      (items.map mkLink) ∧
    ∀ c ∈ cluster_news_items items wm t idGen now, c.links ≠ [] := by
  have hne := clusterGroups_ne_nil items wm t
  have hlinks : (cluster_news_items items wm t idGen now).map (fun c => c.links)
      = (clusterGroups items wm t).map (fun g => g.map mkLink) :=
    buildClusters_links idGen now (clusterGroups items wm t) 0 hne
  refine ⟨hne, clusterGroups_join_perm items wm t, ?_, ?_⟩
  · rw [hlinks]
    have hmapflat : ((clusterGroups items wm t).map (fun g => g.map mkLink)).flatten
        = ((clusterGroups items wm t).flatten).map mkLink := by
      simp [List.map_flatten]
    rw [hmapflat]
    exact (clusterGroups_join_perm items wm t).map mkLink
  · intro c hc
    have hmem : c.links ∈ (cluster_news_items items wm t idGen now).map (fun c => c.links) :=
      List.mem_map_of_mem _ hc
    rw [hlinks] at hmem
    obtain ⟨g, hg, he⟩ := List.mem_map.mp hmem
    have hgne := hne g hg
    rw [← he]
    simpa using hgne

/-- C7: the intra-cluster similarity is `0` for a singleton cluster, and for a
larger cluster it is the maximum, over the members other than the first, of
the similarity between the first member's normalized title and that member's. -/
theorem clusterSimilarity_max (base : NewsItem) (rest : List NewsItem) (hne : rest ≠ []) :
    clusterSimilarity [base] = 0 ∧
    (∀ m ∈ rest,
      token_sort_ratio (normalize_title base.title) (normalize_title m.title) / 100
        ≤ clusterSimilarity (base :: rest)) ∧
    ∃ m ∈ rest,
      clusterSimilarity (base :: rest)
        = token_sort_ratio (normalize_title base.title) (normalize_title m.title) / 100 := by
  rcases rest with _ | ⟨r, rs⟩
  · exact absurd rfl hne
  refine ⟨rfl, ?_, ?_⟩
  · intro m hm
    rcases List.mem_cons.mp hm with rfl | hmem
    · exact le_foldl_max _ _
    · exact mem_le_foldl_max _ _ _ (List.mem_map_of_mem _ hmem)
  · rcases foldl_max_eq_or_mem
        (rs.map (fun item =>
          token_sort_ratio (normalize_title base.title) (normalize_title item.title) / 100))
        (token_sort_ratio (normalize_title base.title) (normalize_title r.title) / 100) with h | h
    · exact ⟨r, List.mem_cons.mpr (Or.inl rfl), h⟩
    · obtain ⟨m, hm, he⟩ := List.mem_map.mp h
      exact ⟨m, List.mem_cons.mpr (Or.inr hm), he.symm⟩

theorem clusterSimilarity_max_witness :
    clusterSimilarity [sampleItem] = 0 ∧
    (∀ m ∈ [sampleItem2],
      token_sort_ratio (normalize_title sampleItem.title) (normalize_title m.title) / 100
        ≤ clusterSimilarity [sampleItem, sampleItem2]) ∧
    ∃ m ∈ [sampleItem2],
      clusterSimilarity [sampleItem, sampleItem2]
        = token_sort_ratio (normalize_title sampleItem.title) (normalize_title m.title) / 100 :=
  clusterSimilarity_max sampleItem [sampleItem2] (List.cons_ne_nil _ _)

/-- C8: the scorer floor-clamps the hour delta at 1 — a newest member within
the last hour (for instance 30 seconds old) yields `deltaHours = 1` and
freshness exactly `1 - 1/24`; a newest member older than 24 hours yields
freshness `0`; and freshness never reaches `1`. -/
theorem freshness_clamped (items : List NewsItem) (now latest : Int)
    (hmax : pyMaxInt (items.map (·.published_at)) = some latest) :
    (now - latest ≤ 3600 →
      delta_hours_of now latest = 1 ∧ freshness_of items now = 1 - 1 / 24) ∧
    (now - latest > 24 * 3600 → freshness_of items now = 0) ∧
    freshness_of items now ≤ 1 - 1 / 24 := by
  have hfr : freshness_of items now = max 0 (1 - delta_hours_of now latest / 24) := by
    unfold freshness_of
    rw [hmax]
  have hd : delta_hours_of now latest = max 1 (((now - latest : Int) : ℚ) / 3600) := rfl
  have hone : (1 : ℚ) ≤ delta_hours_of now latest := by
    rw [hd]
    exact le_max_left _ _
  refine ⟨?_, ?_, ?_⟩
  · intro hle
    have hq : ((now - latest : Int) : ℚ) ≤ 3600 := by exact_mod_cast hle
    have hdiv : ((now - latest : Int) : ℚ) / 3600 ≤ 1 := by
      rw [div_le_one (by norm_num : (0 : ℚ) < 3600)]
      linarith
    have h1 : delta_hours_of now latest = 1 := by
      rw [hd]
      exact max_eq_left hdiv
    refine ⟨h1, ?_⟩
    rw [hfr, h1]
    norm_num
  · intro hgt
    have hq : (24 * 3600 : ℚ) < ((now - latest : Int) : ℚ) := by exact_mod_cast hgt
    have hdiv : (24 : ℚ) < ((now - latest : Int) : ℚ) / 3600 := by
      rw [lt_div_iff₀ (by norm_num : (0 : ℚ) < 3600)]
      linarith
    have h1 : delta_hours_of now latest = ((now - latest : Int) : ℚ) / 3600 := by
      rw [hd]
      exact max_eq_right (by linarith)
    rw [hfr, h1]
    apply max_eq_left
    rw [sub_nonpos]
    rw [le_div_iff₀ (by norm_num : (0 : ℚ) < 24)]
    linarith
  · rw [hfr]
    apply max_le (by norm_num)
    linarith [hone]

theorem freshness_clamped_witness :
    pyMaxInt ([sampleItem].map (·.published_at)) = some 0 ∧
    (((30 : Int) - 0 ≤ 3600 →
      delta_hours_of 30 0 = 1 ∧ freshness_of [sampleItem] 30 = 1 - 1 / 24) ∧
    ((30 : Int) - 0 > 24 * 3600 → freshness_of [sampleItem] 30 = 0) ∧
    freshness_of [sampleItem] 30 ≤ 1 - 1 / 24) :=
  ⟨rfl, freshness_clamped [sampleItem] 30 0 rfl⟩

/-- C2 (counterexample): `http://WWW.Example.com/a#frag` and
`https://example.com/a` do *not* canonicalize identically — the scheme is kept
when present — and dedupe keeps both records carrying them (distinct hashes,
dissimilar titles, threshold 0.9). -/
theorem canonicalize_url_scheme_counterexample :
    canonicalize_url "http://WWW.Example.com/a#frag" ≠ canonicalize_url "https://example.com/a" ∧
    dedupe_items [urlDupA, urlDupB] (9 / 10) = [urlDupA, urlDupB] := by
  constructor
  · decide
  · have h1 : isDuplicate (9 / 10) urlDupA [] = false := rfl
    have h2 : isDuplicate (9 / 10) urlDupB [urlDupA] = false := by with_unfolding_all decide
    simp [dedupe_items, List.foldl, dedupeStep, h1, h2]

/-- C2 (amended): with the scheme also equal, `https://WWW.Example.com/a#frag`
and `https://example.com/a` canonicalize identically, and dedupe drops the
later of two records carrying them through the URL-equality branch, whatever
their titles, fingerprints, and threshold. -/
theorem canonicalize_url_www_fragment_dedupe (ha hb ti1 ti2 : String) (t : ℚ) :
    canonicalize_url "https://WWW.Example.com/a#frag" = canonicalize_url "https://example.com/a" ∧
    dedupe_items
      [⟨"u1", "coindesk", "https://WWW.Example.com/a#frag", ti1, none, 0, 0, "", "en", ha⟩,
       ⟨"u2", "theblock", "https://example.com/a", ti2, none, 60, 0, "", "en", hb⟩] t
      = [⟨"u1", "coindesk", "https://WWW.Example.com/a#frag", ti1, none, 0, 0, "", "en", ha⟩] := by
  have hurl : canonicalize_url "https://WWW.Example.com/a#frag"
      = canonicalize_url "https://example.com/a" := by decide
  refine ⟨hurl, ?_⟩
  simp [dedupe_items, List.foldl, dedupeStep, isDuplicate, hurl]

/-- C5: the window is anchored to the most recently appended member, so a
chain A, B, C with each link inside the window and pairwise similar titles
lands in a single cluster even when C is further than the window from A. -/
theorem cluster_window_chains (A B C : NewsItem) (wm : Int) (t : ℚ)
    (hAB : A.published_at ≤ B.published_at)
    (hBC : B.published_at ≤ C.published_at)
    (hwinAB : ((B.published_at - A.published_at).natAbs : Int) ≤ wm * 60)
    (hwinBC : ((C.published_at - B.published_at).natAbs : Int) ≤ wm * 60)
    (hfar : ((C.published_at - A.published_at).natAbs : Int) > wm * 60)
    (hsAB : token_sort_ratio (normalize_title A.title) (normalize_title B.title) / 100 ≥ t)
    (hsBC : token_sort_ratio (normalize_title B.title) (normalize_title C.title) / 100 ≥ t)
    (hsAC : token_sort_ratio (normalize_title A.title) (normalize_title C.title) / 100 ≥ t) :
    clusterGroups [A, B, C] wm t = [[A, B, C]] := by
  have hsort : sortByPublished [A, B, C] = [A, B, C] := by
    simp [sortByPublished, pySort, List.foldl, insertSorted, hAB, hBC, le_trans hAB hBC]
  have m1 : clusterMatch wm t [A] B = true := by
    have hm : clusterMatch wm t [A] B
        = if ((B.published_at - A.published_at).natAbs : Int) > wm * 60
          then false
          else decide
            (token_sort_ratio (normalize_title A.title) (normalize_title B.title) / 100 ≥ t) := rfl
    rw [hm, if_neg (not_lt.mpr hwinAB)]
    exact decide_eq_true hsAB
  have m2 : clusterMatch wm t [A, B] C = true := by
    have hm : clusterMatch wm t [A, B] C
        = if ((C.published_at - B.published_at).natAbs : Int) > wm * 60
          then false
          else decide
            (token_sort_ratio (normalize_title B.title) (normalize_title C.title) / 100 ≥ t) := rfl
    rw [hm, if_neg (not_lt.mpr hwinBC)]
    exact decide_eq_true hsBC
  unfold clusterGroups
  rw [hsort]
  simp [List.foldl, placeItem, m1, m2]

theorem cluster_window_chains_witness :
    (chainA.published_at ≤ chainB.published_at ∧
      chainB.published_at ≤ chainC.published_at ∧
      ((chainB.published_at - chainA.published_at).natAbs : Int) ≤ 60 * 60 ∧
      ((chainC.published_at - chainB.published_at).natAbs : Int) ≤ 60 * 60 ∧
      ((chainC.published_at - chainA.published_at).natAbs : Int) > 60 * 60 ∧
      token_sort_ratio (normalize_title chainA.title) (normalize_title chainB.title) / 100 ≥ (4 : ℚ) / 5) ∧
    clusterGroups [chainA, chainB, chainC] 60 (4 / 5) = [[chainA, chainB, chainC]] :=
  ⟨⟨by decide, by decide, by decide, by decide, by decide,
      by with_unfolding_all decide⟩,
    cluster_window_chains chainA chainB chainC 60 (4 / 5)
      (by decide) (by decide) (by decide) (by decide) (by decide)
      (by with_unfolding_all decide) (by with_unfolding_all decide)
      (by with_unfolding_all decide)⟩

/-- C9: `extract_entities` returns a sorted (code-point order), deduplicated
list; a token is present exactly when its `\b`-bounded pattern matches the
lower-cased text case-insensitively, the token being the pattern stripped of
its `\b` anchors and upper-cased; on the combined example titles it returns
exactly `["BTC", "ETF", "SEC"]`. -/
theorem extract_entities_spec :
    (∀ text : String,
      List.Sorted (fun a b => strLe a b = true) (extract_entities text) ∧
      (extract_entities text).Nodup ∧
      ∀ s : String,
        s ∈ extract_entities text ↔
          ∃ p, p ∈ ENTITY_PATTERNS ∧ reSearchBWord p (pyLower text).data = true ∧
            pyUpper ⟨pyStripChars ['\\', 'b'] p.data⟩ = s) ∧
    extract_entities "Bitcoin hits $50k BTC ETF approved by SEC" = ["BTC", "ETF", "SEC"] := by
  constructor
  · intro text
    refine ⟨sorted_pySort_strLe _, ?_, ?_⟩
    · exact ((pySort_perm strLe _).nodup_iff).mpr (List.nodup_dedup _)
    · intro s
      simp only [extract_entities]
      rw [(pySort_perm strLe _).mem_iff, List.mem_dedup, List.mem_map]
      constructor
      · rintro ⟨p, hp, he⟩
        have hp' := List.mem_filter.mp hp
        exact ⟨p, hp'.1, hp'.2, he⟩
      · rintro ⟨p, hp, hsearch, he⟩
        exact ⟨p, List.mem_filter.mpr ⟨hp, hsearch⟩, he⟩
  · decide
